import Mathlib

/-!
Verification development for the rental-price-predictor pipeline
(src/train_model.py and src/app.py).

The Python source configures sklearn components; this file gives a shallow
embedding of the pipeline as executable Lean definitions:

* records and the dataset (`Record`, `RawRow`, `prepare_features`);
* the preprocessing transformer built by `create_preprocessing_pipeline`
  (a `ColumnTransformer` of a `StandardScaler` over the seven numeric columns
  and a `OneHotEncoder` with `handle_unknown` set to ignore over the three
  categorical columns), embedded as `fitTransformer` / `transform`;
* the seeded train/test split of `train_test_split` (`splitIndices`);
* the seeded bagged-tree regressor of `RandomForestRegressor`
  (`fitForest` / `predictForest`), with its parallel per-tree fitting
  modelled by an explicit completion schedule (`fitForestWith`);
* the pickled model file written by `save_model` and read by `load_model`,
  embedded as a token-level codec (`serialize` / `deserialize`) carrying the
  pickle protocol version marker;
* the memoized model load of the inference app (`loadStep`, `runCallers`).

Machine reals are modelled by `ℚ`; square roots (used by the scaler only on
columns of nonzero variance, and by the RMSE metric) are modelled by the
computable stand-in `ratSqrt`.  No claim proved below depends on the values
`ratSqrt` takes, only on it being a function.
-/

namespace RentalPredictor

/-- Computable rational stand-in for the floating-point square root used by
sklearn (`numpy.sqrt`).  It is exact on perfect squares of naturals; the
theorems below never depend on its values, only on determinism. -/
def ratSqrt (q : ℚ) : ℚ := (Nat.sqrt q.num.toNat : ℚ) / (Nat.sqrt q.den : ℚ)

/-- One property observation, restricted to the feature columns that survive
`prepare_features` (identifier and target dropped).  Field names and the
categorical/numeric partition follow `create_preprocessing_pipeline`. -/
structure Record where
  city : String
  location : String
  furnishing : String
  bhk : ℚ
  size_sqft : ℚ
  bathrooms : ℚ
  floor : ℚ
  total_floors : ℚ
  property_age : ℚ
  parking : ℚ
deriving DecidableEq, Repr, Inhabited

/-- One row of the training dataset: the `Property_ID` column, the feature
columns, and the `Rent` target. -/
structure RawRow where
  property_id : String
  record : Record
  rent : ℚ
deriving DecidableEq, Repr, Inhabited

/-- Embeds `prepare_features`: drops `Property_ID` and `Rent`, returning the
feature matrix `X` and the target vector `y`. -/
def prepare_features (df : List RawRow) : List Record × List ℚ :=
  (df.map (fun r => r.record), df.map (fun r => r.rent))

/-- The numeric feature columns, in the order they are listed in
`create_preprocessing_pipeline` (`BHK`, `Size_sqft`, `Bathrooms`, `Floor`,
`Total_Floors`, `Property_Age`, `Parking`). -/
def numCols : List (Record → ℚ) :=
  [fun r => r.bhk, fun r => r.size_sqft, fun r => r.bathrooms, fun r => r.floor,
   fun r => r.total_floors, fun r => r.property_age, fun r => r.parking]

/-- Arithmetic mean of a list of rationals (0 on the empty list, since in ℚ
division by zero is zero). -/
def mean (l : List ℚ) : ℚ := l.sum / l.length

/-- Population variance, as computed by `StandardScaler` (division by `n`). -/
def popVar (l : List ℚ) : ℚ := ((l.map (fun x => (x - mean l) ^ 2)).sum) / l.length

/-- The per-column scale kept by `StandardScaler`: the square root of the
variance, except that a zero variance is replaced by a scale of 1
(sklearn's `_handle_zeros_in_scale`), so constant columns never divide
by zero. -/
def scaleOf (v : ℚ) : ℚ := if v = 0 then 1 else ratSqrt v

/-- `StandardScaler.fit` on one column: the frozen (mean, scale) pair. -/
def fitNum (l : List ℚ) : ℚ × ℚ := (mean l, scaleOf (popVar l))

/-- `StandardScaler.transform` on one value of one column. -/
def encodeNum (stat : ℚ × ℚ) (x : ℚ) : ℚ := (x - stat.1) / stat.2

/-- Lexicographic comparison of code-point lists: the order `numpy.unique`
sorts string columns by. -/
def lexLe : List Nat → List Nat → Bool
  | [], _ => true
  | _ :: _, [] => false
  | a :: as, b :: bs => if a < b then true else if b < a then false else lexLe as bs

/-- Code-point-lexicographic comparison of strings; proved below to agree
with the standard string order. -/
def strLe (a b : String) : Bool :=
  lexLe (a.data.map Char.toNat) (b.data.map Char.toNat)

/-- `OneHotEncoder.fit` on one categorical column: the frozen basis is the
sorted list of distinct observed values (`numpy.unique`). -/
def fitBasis (vals : List String) : List String :=
  List.insertionSort (fun a b => strLe a b) vals.dedup

/-- `OneHotEncoder.transform` on one value of one categorical column: the
indicator vector of the value over the frozen basis.  With
`handle_unknown` set to ignore this is total: a value outside the basis
yields the all-zero vector rather than an error. -/
def oneHot (v : String) (basis : List String) : List ℚ :=
  basis.map (fun c => if c = v then 1 else 0)

/-- The frozen transformer statistics: per numeric column a (mean, scale)
pair, per categorical column the ordered basis. -/
structure TransformerState where
  numStats : List (ℚ × ℚ)
  cityBasis : List String
  locationBasis : List String
  furnishingBasis : List String
deriving DecidableEq, Repr, Inhabited

/-- Fitting the `ColumnTransformer` on the training records. -/
def fitTransformer (rows : List Record) : TransformerState :=
  { numStats := numCols.map (fun f => fitNum (rows.map f))
    cityBasis := fitBasis (rows.map (fun r => r.city))
    locationBasis := fitBasis (rows.map (fun r => r.location))
    furnishingBasis := fitBasis (rows.map (fun r => r.furnishing)) }

/-- The standardized numeric block of the encoded vector, in the fixed
column order of `numCols`. -/
def numericEncoding (st : TransformerState) (r : Record) : List ℚ :=
  (st.numStats.zip (numCols.map (fun f => f r))).map (fun p => encodeNum p.1 p.2)

/-- The full encoded vector: the numeric block followed by the three one-hot
blocks, in the fixed order declared in `create_preprocessing_pipeline`.
A pure total function of the record and the frozen state. -/
def transform (st : TransformerState) (r : Record) : List ℚ :=
  numericEncoding st r ++ oneHot r.city st.cityBasis ++
    oneHot r.location st.locationBasis ++ oneHot r.furnishing st.furnishingBasis

/-- One step of a 64-bit linear congruential generator.  Computable model of
the seeded pseudo-random stream of `numpy.random.RandomState`; the exact
stream differs from Mersenne Twister, but every theorem below depends only
on the generator being a deterministic function of the seed. -/
def lcgNext (s : Nat) : Nat :=
  (6364136223846793005 * s + 1442695040888963407) % (2 ^ 64)

/-- Draw a value below `k` from state `s`, returning the advanced state. -/
def drawBelow (s k : Nat) : Nat × Nat :=
  let s2 := lcgNext s
  (s2, (s2 / 65536) % k)

/-- Exchange the entries at positions `i` and `j` of a list. -/
def swapAt (l : List Nat) (i j : Nat) : List Nat :=
  (l.set i (l.getD j 0)).set j (l.getD i 0)

/-- The Fisher–Yates loop of `numpy.random.RandomState.permutation`: for
`i = n-1` down to `1`, swap position `i` with a drawn position `j ≤ i`. -/
def shuffleSteps : Nat → Nat → List Nat → List Nat
  | 0, _, l => l
  | i + 1, s, l =>
      let p := drawBelow s (i + 2)
      shuffleSteps i p.1 (swapAt l (i + 1) p.2)

/-- The seeded pseudo-random permutation of `[0, n)` used by the splitter. -/
def permutation (seed n : Nat) : List Nat :=
  shuffleSteps (n - 1) (lcgNext seed) (List.range n)

/-- The training-time error surfaced when the dataset is too small to split,
modelling the ValueError raised by `train_test_split` when either resulting
partition would be empty. -/
inductive TrainError where
  | InsufficientDataError : TrainError
deriving DecidableEq, Repr

/-- The number of test samples chosen by `train_test_split` for a fractional
`test_size`: the ceiling of `f * n`. -/
def testCount (n : Nat) (f : ℚ) : Nat := (Int.ceil (f * n)).toNat

/-- Embeds `train_test_split(X, y, test_size=f, random_state=seed)` at the
index level: a seeded permutation of `[0, n)` whose first `testCount n f`
entries are the test indices and whose remainder are the train indices.
Fails when either partition would be empty. -/
def splitIndices (n : Nat) (f : ℚ) (seed : Nat) :
    Except TrainError (List Nat × List Nat) :=
  let nTest := testCount n f
  if nTest = 0 ∨ n - nTest = 0 then Except.error TrainError.InsufficientDataError
  else
    let perm := permutation seed n
    Except.ok (perm.drop nTest, perm.take nTest)

/-- Select the rows of a list at the given indices. -/
def selectRows {α : Type} (rows : List α) (idx : List Nat) : List α :=
  idx.filterMap (fun i => rows.get? i)

/-- A fitted regression tree: sklearn's array representation of a tree is
embedded structurally as leaves (predicted value) and internal nodes
(feature index, threshold, subtrees). -/
inductive Tree where
  | leaf (value : ℚ) : Tree
  | node (feature : Nat) (threshold : ℚ) (left right : Tree) : Tree
deriving DecidableEq, Repr, Inhabited

/-- Prediction of a single tree on an encoded vector: descend left when the
feature value is at most the threshold. -/
def predictTree : Tree → List ℚ → ℚ
  | Tree.leaf v, _ => v
  | Tree.node f t l r, x =>
      if x.getD f 0 ≤ t then predictTree l x else predictTree r x

/-- Sum of squared errors of a list of targets about its mean, the CART
impurity used to score candidate splits. -/
def sse (ys : List ℚ) : ℚ := (ys.map (fun y => (y - mean ys) ^ 2)).sum

/-- A training sample for the regressor: encoded feature vector and target. -/
abbrev Sample : Type := List ℚ × ℚ

/-- Partition samples on feature `f` at threshold `t` (left: value ≤ t). -/
def partitionBy (data : List Sample) (f : Nat) (t : ℚ) :
    List Sample × List Sample :=
  (data.filter (fun row => decide (row.1.getD f 0 ≤ t)),
   data.filter (fun row => decide (¬ row.1.getD f 0 ≤ t)))

/-- Candidate (feature, threshold) splits: every observed value of every
feature, enumerated in a fixed order. -/
def splitCandidates (data : List Sample) (nFeat : Nat) : List (Nat × ℚ) :=
  ((List.range nFeat).map (fun f => data.map (fun row => (f, row.1.getD f 0)))).flatten

/-- A split is admissible when both sides satisfy the minimum leaf size of 2
(`min_samples_leaf=2` in the source). -/
def validSplit (data : List Sample) (c : Nat × ℚ) : Bool :=
  let p := partitionBy data c.1 c.2
  decide (2 ≤ p.1.length) && decide (2 ≤ p.2.length)

/-- Total squared error of a candidate split. -/
def splitScore (data : List Sample) (c : Nat × ℚ) : ℚ :=
  let p := partitionBy data c.1 c.2
  sse (p.1.map (fun row => row.2)) + sse (p.2.map (fun row => row.2))

/-- Fold step choosing the admissible candidate of least score (first wins
ties), modelling the deterministic best-split search of the tree builder. -/
def betterSplit (data : List Sample) (a : Option (Nat × ℚ)) (c : Nat × ℚ) :
    Option (Nat × ℚ) :=
  if validSplit data c then
    match a with
    | none => some c
    | some b => if splitScore data c < splitScore data b then some c else some b
  else a

/-- The best admissible split of a node, if any. -/
def bestSplit (data : List Sample) (nFeat : Nat) : Option (Nat × ℚ) :=
  (splitCandidates data nFeat).foldl (betterSplit data) none

/-- Depth-bounded CART fitting: leaves carry the mean target; a node splits
when at least `min_samples_split=5` samples remain, depth allows, and an
admissible split exists. -/
def fitTreeAux (nFeat : Nat) : Nat → List Sample → Tree
  | 0, data => Tree.leaf (mean (data.map (fun row => row.2)))
  | d + 1, data =>
      if data.length < 5 then Tree.leaf (mean (data.map (fun row => row.2)))
      else
        match bestSplit data nFeat with
        | none => Tree.leaf (mean (data.map (fun row => row.2)))
        | some c =>
            let p := partitionBy data c.1 c.2
            Tree.node c.1 c.2 (fitTreeAux nFeat d p.1) (fitTreeAux nFeat d p.2)

/-- Fit one tree with the source's `max_depth=20`. -/
def fitTree (nFeat : Nat) (data : List Sample) : Tree := fitTreeAux nFeat 20 data

/-- The first `k` states of the seeded generator: the per-tree seeds that the
forest draws up front, one per estimator, before any tree is fitted. -/
def prngStream : Nat → Nat → List Nat
  | 0, _ => []
  | k + 1, s => lcgNext s :: prngStream k (lcgNext s)

/-- Bootstrap sample indices for one tree: `n` seeded draws below `n`. -/
def bootstrapIdx (seed n : Nat) : List Nat :=
  (prngStream n seed).map (fun v => (v / 65536) % n)

/-- Fit one tree of the ensemble from its own seed: resample the training
samples with replacement, then run the deterministic CART builder. -/
def fitSeededTree (nFeat : Nat) (data : List Sample) (s : Nat) : Tree :=
  fitTree nFeat (selectRows data (bootstrapIdx s data.length))

/-- The source's ensemble size (`n_estimators=100`). -/
def nTrees : Nat := 100

/-- Fit the forest under an explicit completion schedule, modelling
`n_jobs=-1`: `order` lists tree indices in the order their (independent,
individually seeded) fits complete; each finished tree is written into its
own slot, and the forest is read off slot by slot.  The per-tree seeds are
drawn from the master seed up front, in index order, as sklearn does. -/
def fitForestWith (order : List Nat) (nFeat : Nat) (data : List Sample)
    (seed : Nat) : List Tree :=
  let seeds := prngStream nTrees seed
  let slots := order.foldl
    (fun acc i => Function.update acc i (some (fitSeededTree nFeat data (seeds.getD i 0))))
    (fun _ => (none : Option Tree))
  (List.range nTrees).map (fun i => (slots i).getD (Tree.leaf 0))

/-- The forest obtained by fitting the trees in index order. -/
def fitForest (nFeat : Nat) (data : List Sample) (seed : Nat) : List Tree :=
  (prngStream nTrees seed).map (fitSeededTree nFeat data)

/-- Forest prediction: the arithmetic mean of all trees' outputs. -/
def predictForest (forest : List Tree) (x : List ℚ) : ℚ :=
  mean (forest.map (fun t => predictTree t x))

/-- The persisted bundle: the frozen transformer statistics (whose bases are
the schema snapshot) and the fitted estimator parameters.  Embeds the
pipeline object pickled by `save_model`. -/
structure ModelArtifact where
  state : TransformerState
  forest : List Tree
deriving DecidableEq, Repr, Inhabited

/-- The evaluation metrics of `evaluate_model`. -/
structure Metrics where
  mae : ℚ
  rmse : ℚ
  r2 : ℚ
deriving DecidableEq, Repr

/-- Width of an encoded vector under a transformer state. -/
def stateWidth (st : TransformerState) : Nat :=
  st.numStats.length + st.cityBasis.length + st.locationBasis.length +
    st.furnishingBasis.length

/-- The metrics of `evaluate_model`: MAE, RMSE (square root modelled by
`ratSqrt`), and R². -/
def evalMetrics (preds actuals : List ℚ) : Metrics :=
  let errs := (preds.zip actuals).map (fun p => p.1 - p.2)
  { mae := mean (errs.map (fun e => |e|))
    rmse := ratSqrt (mean (errs.map (fun e => e ^ 2)))
    r2 := 1 - ((errs.map (fun e => e ^ 2)).sum) /
      ((actuals.map (fun y => (y - mean actuals) ^ 2)).sum) }

/-- The training orchestration of `main` after the dataset has been split
into features and target: split by index, fit the transformer on the train
partition only, fit the forest on the encoded train partition under the
given completion schedule, evaluate on the test partition through the
already-frozen transformer. -/
def trainCore (order : List Nat) (xy : List Record × List ℚ) (f : ℚ)
    (seed : Nat) : Except TrainError (ModelArtifact × Metrics) :=
  match splitIndices xy.1.length f seed with
  | Except.error e => Except.error e
  | Except.ok (trainIdx, testIdx) =>
      let xTrain := selectRows xy.1 trainIdx
      let yTrain := selectRows xy.2 trainIdx
      let xTest := selectRows xy.1 testIdx
      let yTest := selectRows xy.2 testIdx
      let st := fitTransformer xTrain
      let data := (xTrain.map (transform st)).zip yTrain
      let forest := fitForestWith order (stateWidth st) data seed
      let preds := xTest.map (fun r => predictForest forest (transform st r))
      Except.ok ({ state := st, forest := forest }, evalMetrics preds yTest)

/-- The whole training function of `main` on a raw dataset, under a given
tree-fit completion schedule. -/
def trainWith (order : List Nat) (df : List RawRow) (f : ℚ) (seed : Nat) :
    Except TrainError (ModelArtifact × Metrics) :=
  trainCore order (prepare_features df) f seed

/-- The training function with trees completing in index order. -/
def train (df : List RawRow) (f : ℚ) (seed : Nat) :
    Except TrainError (ModelArtifact × Metrics) :=
  trainWith (List.range nTrees) df f seed

/-- The artifact-load error of the inference side: any malformed or
version-incompatible pickle stream fails to unpickle.  Models the error
raised by `pickle.load` in `load_model`. -/
inductive ArtifactError where
  | CorruptArtifactError : ArtifactError
deriving DecidableEq, Repr

/-- The leading opcode of every pickle stream produced by `pickle.dump`
(the PROTO marker, byte 0x80). -/
def protoTag : Nat := 128

/-- The pickle protocol version recorded after the PROTO opcode and checked
by `pickle.load`: the explicit format version carried by every serialized
artifact. -/
def formatVersion : Nat := 5

/-- Encode a signed integer as a sign token and a magnitude token. -/
def encInt (i : Int) : List Nat :=
  if 0 ≤ i then [0, i.toNat] else [1, (-i).toNat]

/-- Encode a rational exactly: numerator then denominator, already in the
reduced form the `Rat` structure maintains, so no precision is lost. -/
def encRat (q : ℚ) : List Nat := encInt q.num ++ [q.den]

/-- Encode a string as its length followed by its character codes. -/
def encString (s : String) : List Nat :=
  s.data.length :: s.data.map Char.toNat

/-- Concatenate the encodings of the elements of a list. -/
def encListAux {α : Type} (f : α → List Nat) : List α → List Nat
  | [] => []
  | a :: as => f a ++ encListAux f as

/-- Encode a list as a count followed by the element encodings. -/
def encList {α : Type} (f : α → List Nat) (l : List α) : List Nat :=
  l.length :: encListAux f l

/-- Encode a (mean, scale) statistics pair. -/
def encPairRat (p : ℚ × ℚ) : List Nat := encRat p.1 ++ encRat p.2

/-- Encode a fitted tree in preorder with constructor tags. -/
def encTree : Tree → List Nat
  | Tree.leaf v => 0 :: encRat v
  | Tree.node f t l r => 1 :: f :: (encRat t ++ encTree l ++ encTree r)

/-- Encode the frozen transformer statistics: the numeric statistics and the
three categorical bases (the schema snapshot). -/
def encState (st : TransformerState) : List Nat :=
  encList encPairRat st.numStats ++ encList encString st.cityBasis ++
    encList encString st.locationBasis ++ encList encString st.furnishingBasis

/-- Embeds `save_model` / `pickle.dumps` at the token level: the PROTO
marker and protocol version, then the transformer statistics, then every
fitted tree of the ensemble. -/
def serialize (a : ModelArtifact) : List Nat :=
  protoTag :: formatVersion :: (encState a.state ++ encList encTree a.forest)

/-- Read one token off the front of the stream. -/
def readTok (l : List Nat) : Except ArtifactError (Nat × List Nat) :=
  match l with
  | [] => Except.error ArtifactError.CorruptArtifactError
  | t :: r => Except.ok (t, r)

/-- Parse a signed integer; only the canonical sign/magnitude form is
accepted. -/
def parseInt (l : List Nat) : Except ArtifactError (Int × List Nat) :=
  match l with
  | 0 :: m :: r => Except.ok ((m : Int), r)
  | 1 :: m :: r =>
      if m = 0 then Except.error ArtifactError.CorruptArtifactError
      else Except.ok (-(m : Int), r)
  | _ => Except.error ArtifactError.CorruptArtifactError

/-- Parse a rational; only reduced numerator/denominator pairs are accepted,
and the value is rebuilt exactly from its components. -/
def parseRat (l : List Nat) : Except ArtifactError (ℚ × List Nat) :=
  match parseInt l with
  | Except.error e => Except.error e
  | Except.ok (n, r) =>
      match r with
      | [] => Except.error ArtifactError.CorruptArtifactError
      | d :: r2 =>
          if h : d ≠ 0 ∧ n.natAbs.Coprime d then
            Except.ok (Rat.mk' n d h.1 h.2, r2)
          else Except.error ArtifactError.CorruptArtifactError

/-- Parse exactly `k` characters; only valid code points are accepted. -/
def parseChars : Nat → List Nat → Except ArtifactError (List Char × List Nat)
  | 0, l => Except.ok ([], l)
  | _ + 1, [] => Except.error ArtifactError.CorruptArtifactError
  | k + 1, t :: r =>
      if h : t.isValidChar then
        match parseChars k r with
        | Except.ok (cs, r2) => Except.ok (Char.ofNatAux t h :: cs, r2)
        | Except.error e => Except.error e
      else Except.error ArtifactError.CorruptArtifactError

/-- Parse a string: a length token then that many characters. -/
def parseString (l : List Nat) : Except ArtifactError (String × List Nat) :=
  match readTok l with
  | Except.error e => Except.error e
  | Except.ok (len, r) =>
      match parseChars len r with
      | Except.ok (cs, r2) => Except.ok (String.mk cs, r2)
      | Except.error e => Except.error e

/-- Parse exactly `k` values with the element parser `p`. -/
def parseCount {α : Type} (p : List Nat → Except ArtifactError (α × List Nat)) :
    Nat → List Nat → Except ArtifactError (List α × List Nat)
  | 0, l => Except.ok ([], l)
  | k + 1, l =>
      match p l with
      | Except.error e => Except.error e
      | Except.ok (a, r) =>
          match parseCount p k r with
          | Except.error e => Except.error e
          | Except.ok (as, r2) => Except.ok (a :: as, r2)

/-- Parse a counted list with the element parser `p`. -/
def parseList {α : Type} (p : List Nat → Except ArtifactError (α × List Nat))
    (l : List Nat) : Except ArtifactError (List α × List Nat) :=
  match readTok l with
  | Except.error e => Except.error e
  | Except.ok (len, r) => parseCount p len r

/-- Parse a (mean, scale) pair. -/
def parsePairRat (l : List Nat) : Except ArtifactError ((ℚ × ℚ) × List Nat) :=
  match parseRat l with
  | Except.error e => Except.error e
  | Except.ok (a, r) =>
      match parseRat r with
      | Except.error e => Except.error e
      | Except.ok (b, r2) => Except.ok ((a, b), r2)

/-- Fuelled preorder tree parser; the fuel bounds the number of nodes, and
the top-level caller passes the stream length, which always suffices. -/
def parseTree : Nat → List Nat → Except ArtifactError (Tree × List Nat)
  | 0, _ => Except.error ArtifactError.CorruptArtifactError
  | fuel + 1, l =>
      match l with
      | 0 :: r =>
          match parseRat r with
          | Except.error e => Except.error e
          | Except.ok (v, r2) => Except.ok (Tree.leaf v, r2)
      | 1 :: f :: r =>
          match parseRat r with
          | Except.error e => Except.error e
          | Except.ok (t, r2) =>
              match parseTree fuel r2 with
              | Except.error e => Except.error e
              | Except.ok (lt, r3) =>
                  match parseTree fuel r3 with
                  | Except.error e => Except.error e
                  | Except.ok (rt, r4) => Except.ok (Tree.node f t lt rt, r4)
      | _ => Except.error ArtifactError.CorruptArtifactError

/-- Parse one tree, fuelling the preorder parser with the stream length. -/
def parseTreeTop (l : List Nat) : Except ArtifactError (Tree × List Nat) :=
  parseTree l.length l

/-- Parse the frozen transformer statistics. -/
def parseState (l : List Nat) : Except ArtifactError (TransformerState × List Nat) :=
  match parseList parsePairRat l with
  | Except.error e => Except.error e
  | Except.ok (ns, r1) =>
      match parseList parseString r1 with
      | Except.error e => Except.error e
      | Except.ok (cb, r2) =>
          match parseList parseString r2 with
          | Except.error e => Except.error e
          | Except.ok (lb, r3) =>
              match parseList parseString r3 with
              | Except.error e => Except.error e
              | Except.ok (fb, r4) =>
                  Except.ok (⟨ns, cb, lb, fb⟩, r4)

/-- Embeds `load_model` / `pickle.loads` at the token level: check the PROTO
marker and the protocol version, parse the transformer statistics and the
forest, and reject any stream that is truncated, non-canonical, or has
trailing garbage. -/
def deserialize (l : List Nat) : Except ArtifactError ModelArtifact :=
  match l with
  | p :: v :: r =>
      if p = protoTag ∧ v = formatVersion then
        match parseState r with
        | Except.error e => Except.error e
        | Except.ok (st, r2) =>
            match parseList parseTreeTop r2 with
            | Except.error e => Except.error e
            | Except.ok (forest, r3) =>
                match r3 with
                | [] => Except.ok ⟨st, forest⟩
                | _ :: _ => Except.error ArtifactError.CorruptArtifactError
      else Except.error ArtifactError.CorruptArtifactError
  | _ => Except.error ArtifactError.CorruptArtifactError

/-- The state of the process-wide memoized model load.  Modelled from the
spec: the cache that backs the inference app's decorated `load_model` (its
implementation lives in the `st.cache_resource` machinery, outside this
repository's sources): an optional cached artifact plus a count of actual
storage reads. -/
structure CacheState where
  cached : Option ModelArtifact
  reads : Nat
deriving DecidableEq, Repr

/-- The cache before any call: nothing cached, no reads performed. -/
def initialCache : CacheState := ⟨none, 0⟩

/-- One caller's pass through the memoized load, as one atomic step — the
atomicity is exactly what the cache's internal lock guarantees.  Modelled
from the spec: a cache hit returns the cached handle without touching
storage; a miss performs the one storage read (deserializing the stored
bytes, as `load_model` unpickles the model file) and fills the cache. -/
def loadStep (storage : List Nat) (s : CacheState) :
    CacheState × Except ArtifactError ModelArtifact :=
  match s.cached with
  | some a => (s, Except.ok a)
  | none =>
      match deserialize storage with
      | Except.ok a => (⟨some a, s.reads + 1⟩, Except.ok a)
      | Except.error e => (⟨none, s.reads + 1⟩, Except.error e)

/-- Run `n` callers through the memoized load, in the serialization order the
cache's lock imposes on them; returns the final cache state and every
caller's result. -/
def runCallers (storage : List Nat) :
    Nat → CacheState → CacheState × List (Except ArtifactError ModelArtifact)
  | 0, s => (s, [])
  | k + 1, s =>
      let step := loadStep storage s
      let rest := runCallers storage k step.1
      (rest.1, step.2 :: rest.2)

/-- Number of constructors of a tree; bounds the fuel the tree parser needs. -/
def nodes : Tree → Nat
  | Tree.leaf _ => 1
  | Tree.node _ _ l r => 1 + nodes l + nodes r

/-- A dataset row with its `Property_ID` column removed: what remains of a row
after the drop in `prepare_features`. -/
def stripId (r : RawRow) : Record × ℚ := (r.record, r.rent)

/-- Concrete training records used by witnesses: every numeric column is
constant (`BHK` constantly 5), categorical values vary. -/
def rowsW : List Record :=
  [⟨"A", "L", "F", 5, 100, 1, 1, 1, 1, 1⟩,
   ⟨"A", "L", "F", 5, 100, 1, 1, 1, 1, 1⟩,
   ⟨"B", "M", "G", 5, 100, 1, 1, 1, 1, 1⟩]

/-- A concrete inference record whose `BHK` value 7 differs from the constant
training value 5. -/
def recW : Record := ⟨"A", "L", "F", 7, 100, 1, 1, 1, 1, 1⟩

/-- A concrete inference record whose three categorical values are all absent
from the bases fitted on `rowsW`. -/
def recUnknown : Record := ⟨"Z", "Z", "Z", 5, 100, 1, 1, 1, 1, 1⟩

/-- A small concrete artifact used by witnesses. -/
def artifactW : ModelArtifact :=
  ⟨⟨[(0, 1)], ["a"], [], []⟩,
   [Tree.leaf 0, Tree.node 0 (1 / 2) (Tree.leaf 1) (Tree.leaf 2)]⟩

/-- Two concrete one-row datasets that differ only in `Property_ID`. -/
def dfW1 : List RawRow := [⟨"P1", recW, 10⟩]

/-- See `dfW1`: same record and rent, different identifier. -/
def dfW2 : List RawRow := [⟨"P2", recW, 10⟩]

/-! ## Helper lemmas: one-hot encoding and frozen bases -/

/-- A value outside the basis encodes to the all-zero indicator vector. -/
theorem oneHot_not_mem (v : String) (basis : List String) (h : v ∉ basis) :
    oneHot v basis = List.replicate basis.length 0 := by
  induction basis with
  | nil => rfl
  | cons c bs ih =>
    simp only [List.mem_cons, not_or] at h
    rw [oneHot, List.map_cons, if_neg (fun e => h.1 e.symm), List.length_cons,
      List.replicate_succ]
    exact congrArg (List.cons 0) (ih h.2)

/-- Every entry of the all-zero vector reads as 0. -/
theorem getD_replicate_zero : ∀ (n j : Nat), (List.replicate n (0 : ℚ)).getD j 0 = 0
  | 0, 0 => rfl
  | 0, _ + 1 => rfl
  | _ + 1, 0 => rfl
  | n + 1, j + 1 => getD_replicate_zero n j

/-- On a duplicate-free basis containing `v`, the indicator vector reads 1 at
the index of `v`, 0 everywhere else, and holds exactly one 1. -/
theorem oneHot_mem_spec (v : String) (basis : List String) (hn : basis.Nodup)
    (hv : v ∈ basis) :
    (oneHot v basis).getD (basis.indexOf v) 0 = 1 ∧
      (∀ j, j ≠ basis.indexOf v → (oneHot v basis).getD j 0 = 0) ∧
      (oneHot v basis).count 1 = 1 := by
  induction basis with
  | nil => exact absurd hv (List.not_mem_nil v)
  | cons c bs ih =>
    by_cases hc : c = v
    · subst hc
      have hnotin : c ∉ bs := (List.nodup_cons.mp hn).1
      have hz : oneHot c bs = List.replicate bs.length 0 := oneHot_not_mem c bs hnotin
      refine ⟨?_, ?_, ?_⟩
      · rw [List.indexOf_cons_self]
        simp [oneHot]
      · intro j hj
        rw [List.indexOf_cons_self] at hj
        match j, hj with
        | k + 1, _ =>
          show (oneHot c bs).getD k 0 = 0
          rw [hz]; exact getD_replicate_zero bs.length k
      · rw [oneHot, List.map_cons, if_pos rfl]
        show List.count 1 (1 :: oneHot c bs) = 1
        rw [hz, List.count_cons_self]
        have : (List.replicate bs.length (0 : ℚ)).count 1 = 0 := by
          refine List.count_eq_zero.mpr (fun hmem => ?_)
          have := List.eq_of_mem_replicate hmem
          norm_num at this
        omega
    · have hv' : v ∈ bs := by
        rcases List.mem_cons.mp hv with h | h
        · exact absurd h.symm hc
        · exact h
      have hn' : bs.Nodup := (List.nodup_cons.mp hn).2
      have hidx : List.indexOf v (c :: bs) = List.indexOf v bs + 1 :=
        List.indexOf_cons_ne bs hc
      obtain ⟨ih1, ih2, ih3⟩ := ih hn' hv'
      refine ⟨?_, ?_, ?_⟩
      · rw [hidx]
        show (oneHot v bs).getD (List.indexOf v bs) 0 = 1
        exact ih1
      · intro j hj
        rw [hidx] at hj
        match j with
        | 0 => simp [oneHot, hc]
        | k + 1 =>
          have hk : k ≠ List.indexOf v bs := fun e => hj (by omega)
          show (oneHot v bs).getD k 0 = 0
          exact ih2 k hk
      · rw [oneHot, List.map_cons, if_neg hc]
        rw [List.count_cons_of_ne (by norm_num)]
        exact ih3

/-- Character comparison agrees with code-point comparison. -/
theorem char_lt_iff (c d : Char) : c < d ↔ c.toNat < d.toNat := by
  rw [Char.lt_def, UInt32.lt_def, BitVec.lt_def]
  rfl

/-- Characters with equal code points are equal. -/
theorem char_eq_iff (c d : Char) : c = d ↔ c.toNat = d.toNat := by
  constructor
  · intro h; rw [h]
  · intro h
    have h2 := congrArg Char.ofNat h
    rwa [Char.ofNat_toNat, Char.ofNat_toNat] at h2

/-- Head/tail decomposition of the lexicographic order on character lists. -/
theorem charList_cons_lt_iff (a b : Char) (as bs : List Char) :
    a :: as < b :: bs ↔ a < b ∨ (a = b ∧ as < bs) := by
  show List.Lex _ _ _ ↔ _
  constructor
  · intro h
    cases h with
    | cons h => exact Or.inr ⟨rfl, h⟩
    | rel h => exact Or.inl h
  · intro h
    rcases h with h | ⟨rfl, h⟩
    · exact List.Lex.rel h
    · exact List.Lex.cons h

/-- The executable comparison `lexLe` decides the standard order on character
lists. -/
theorem lexLe_iff : ∀ (as bs : List Char),
    (lexLe (as.map Char.toNat) (bs.map Char.toNat) = true) ↔ as ≤ bs
  | [], bs => by
      simp only [List.map_nil, lexLe]
      cases bs with
      | nil => simp
      | cons b bs => simp [List.nil_le]
  | a :: as, [] => by
      simp only [List.map_cons, List.map_nil, lexLe]
      constructor
      · intro h; cases h
      · intro h
        exact absurd (List.nil_lt_cons a as) (not_lt.mpr h)
  | a :: as, b :: bs => by
      simp only [List.map_cons, lexLe]
      have hle : (a :: as ≤ b :: bs) ↔ ¬ (b :: bs < a :: as) := not_lt.symm
      rw [hle, charList_cons_lt_iff]
      by_cases h1 : a.toNat < b.toNat
      · have hab : a < b := (char_lt_iff a b).mpr h1
        simp only [if_pos h1]
        constructor
        · intro _
          rintro (hba | ⟨rfl, -⟩)
          · exact absurd hab (lt_asymm hba)
          · exact lt_irrefl _ hab
        · intro _; trivial
      · by_cases h2 : b.toNat < a.toNat
        · have hba : b < a := (char_lt_iff b a).mpr h2
          simp only [if_neg h1, if_pos h2]
          constructor
          · intro h; cases h
          · intro h
            exact absurd (Or.inl hba) h
        · have heq : a = b := (char_eq_iff a b).mpr (by omega)
          subst heq
          simp only [if_neg h1, if_neg h2]
          rw [lexLe_iff as bs]
          constructor
          · intro h
            rintro (hlt | ⟨-, hlt⟩)
            · exact lt_irrefl _ hlt
            · exact absurd hlt h.not_lt
          · intro h
            by_contra hcon
            exact h (Or.inr ⟨by trivial, not_le.mp hcon⟩)

/-- `strLe` decides the standard string order. -/
theorem strLe_iff_le (a b : String) : strLe a b = true ↔ a ≤ b := by
  rw [strLe, lexLe_iff, String.le_iff_toList_le]
  rfl

/-- The fitted basis is sorted in the standard string order. -/
theorem fitBasis_sorted (vals : List String) :
    List.Sorted (fun a b => a ≤ b) (fitBasis vals) := by
  have htot : IsTotal String (fun a b => strLe a b = true) :=
    ⟨fun a b => by rw [strLe_iff_le, strLe_iff_le]; exact le_total a b⟩
  have htrans : IsTrans String (fun a b => strLe a b = true) :=
    ⟨fun a b c hab hbc => by
      rw [strLe_iff_le] at hab hbc ⊢
      exact le_trans hab hbc⟩
  have hs : List.Sorted (fun a b => strLe a b = true) (fitBasis vals) :=
    @List.sorted_insertionSort String _ _ htot htrans vals.dedup
  exact hs.imp (fun h => (strLe_iff_le _ _).mp h)

/-- The fitted basis has no duplicates. -/
theorem fitBasis_nodup (vals : List String) : (fitBasis vals).Nodup :=
  (List.perm_insertionSort _ _).nodup_iff.mpr (List.nodup_dedup vals)

/-- The fitted basis holds exactly the distinct observed values. -/
theorem fitBasis_mem (vals : List String) (w : String) :
    w ∈ fitBasis vals ↔ w ∈ vals := by
  rw [fitBasis, (List.perm_insertionSort _ _).mem_iff, List.mem_dedup]

/-! ## Helper lemmas: standardization of a constant column -/

/-- The mean of a nonempty constant column is the constant. -/
theorem mean_of_const (l : List ℚ) (c : ℚ) (h : ∀ x ∈ l, x = c) (hne : l ≠ []) :
    mean l = c := by
  have hrep : l = List.replicate l.length c := List.eq_replicate_length.mpr h
  have hlen : (l.length : ℚ) ≠ 0 := by
    simpa using (List.length_eq_zero.not.mpr hne)
  rw [mean, hrep]
  rw [List.sum_replicate, List.length_replicate, nsmul_eq_mul]
  exact mul_div_cancel_left₀ c hlen

/-- The population variance of a constant column is 0. -/
theorem popVar_of_const (l : List ℚ) (c : ℚ) (h : ∀ x ∈ l, x = c) :
    popVar l = 0 := by
  rcases eq_or_ne l [] with rfl | hne
  · simp [popVar]
  · have hmean := mean_of_const l c h hne
    have hmap : l.map (fun x => (x - mean l) ^ 2) =
        List.replicate (l.map (fun x => (x - mean l) ^ 2)).length 0 := by
      refine List.eq_replicate_length.mpr (fun b hb => ?_)
      rcases List.mem_map.mp hb with ⟨x, hx, rfl⟩
      rw [h x hx, hmean, sub_self]
      ring
    rw [popVar, hmap]
    simp

/-- The numeric block of the fitted transformer, column by column. -/
theorem numericEncoding_fit (rows : List Record) (r : Record) :
    numericEncoding (fitTransformer rows) r =
      numCols.map (fun f => encodeNum (fitNum (rows.map f)) (f r)) := by
  show ((numCols.map (fun f => fitNum (rows.map f))).zip
      (numCols.map (fun f => f r))).map (fun p => encodeNum p.1 p.2) = _
  rw [List.zip_map']
  rw [List.map_map]
  rfl

/-- Component `i` of the encoded vector is the standardized value of numeric
column `i`. -/
theorem transform_num_component (rows : List Record) (r : Record) (i : Nat)
    (hi : i < numCols.length) :
    (transform (fitTransformer rows) r).getD i 0 =
      encodeNum (fitNum (rows.map (numCols.get ⟨i, hi⟩)))
        (numCols.get ⟨i, hi⟩ r) := by
  have hlen : (numericEncoding (fitTransformer rows) r).length = numCols.length := by
    rw [numericEncoding_fit]; exact List.length_map _ _
  have hsplit : transform (fitTransformer rows) r =
      numericEncoding (fitTransformer rows) r ++
        (oneHot r.city (fitTransformer rows).cityBasis ++
          oneHot r.location (fitTransformer rows).locationBasis ++
          oneHot r.furnishing (fitTransformer rows).furnishingBasis) := by
    rw [transform]
    simp [List.append_assoc]
  rw [hsplit, List.getD_append _ _ _ _ (by rw [hlen]; exact hi)]
  rw [numericEncoding_fit]
  rw [List.getD_eq_getElem _ _ (by rw [List.length_map]; exact hi)]
  rw [List.getElem_map]
  rw [List.get_eq_getElem]

/-- The frozen scale of a constant column is 1, and its encoded value is the
raw value minus the training constant. -/
theorem encodeNum_const (vals : List ℚ) (c x : ℚ) (h : ∀ y ∈ vals, y = c)
    (hne : vals ≠ []) :
    (fitNum vals).2 = 1 ∧ encodeNum (fitNum vals) x = x - c := by
  have hm := mean_of_const vals c h hne
  have hv := popVar_of_const vals c h
  constructor
  · show scaleOf (popVar vals) = 1
    rw [hv, scaleOf, if_pos rfl]
  · show (x - mean vals) / scaleOf (popVar vals) = x - c
    rw [hm, hv, scaleOf, if_pos rfl, div_one]

/-- Constant-column component of the encoded vector, as used by both the
amended claim and its counterexample: scale 1, encoded value `x − c`. -/
theorem constColComponent (i : Nat) (hi : i < numCols.length)
    (rows : List Record) (r : Record) (c : ℚ) (hne : rows ≠ [])
    (h : ∀ x ∈ rows, numCols.get ⟨i, hi⟩ x = c) :
    (fitNum (rows.map (numCols.get ⟨i, hi⟩))).2 = 1 ∧
      (transform (fitTransformer rows) r).getD i 0 =
        numCols.get ⟨i, hi⟩ r - c := by
  have hconst : ∀ y ∈ rows.map (numCols.get ⟨i, hi⟩), y = c := by
    intro y hy
    rcases List.mem_map.mp hy with ⟨x, hx, rfl⟩
    exact h x hx
  have hmapne : rows.map (numCols.get ⟨i, hi⟩) ≠ [] := by
    simpa using hne
  obtain ⟨h1, h2⟩ := encodeNum_const _ c (numCols.get ⟨i, hi⟩ r) hconst hmapne
  exact ⟨h1, by rw [transform_num_component rows r i hi]; exact h2⟩

/-! ## Helper lemmas: the seeded split -/

/-- Swapping two positions preserves the length. -/
theorem length_swapAt (l : List Nat) (i j : Nat) :
    (swapAt l i j).length = l.length := by
  simp [swapAt]

/-- The Fisher–Yates loop preserves the length. -/
theorem length_shuffleSteps :
    ∀ (i s : Nat) (l : List Nat), (shuffleSteps i s l).length = l.length
  | 0, _, _ => rfl
  | i + 1, s, l => by
      show (shuffleSteps i (drawBelow s (i + 2)).1
        (swapAt l (i + 1) (drawBelow s (i + 2)).2)).length = l.length
      rw [length_shuffleSteps i, length_swapAt]

/-- The seeded permutation of `[0, n)` has length `n`. -/
theorem permutation_length (seed n : Nat) : (permutation seed n).length = n := by
  rw [permutation, length_shuffleSteps]
  exact List.length_range n

/-- A split whose test or train side would be empty fails. -/
theorem splitIndices_err (n : Nat) (f : ℚ) (seed : Nat)
    (h : testCount n f = 0 ∨ n - testCount n f = 0) :
    splitIndices n f seed = Except.error TrainError.InsufficientDataError := by
  simp only [splitIndices]
  rw [if_pos h]

/-! ## Claim theorems: preprocessing -/

/-- C3: transforming a record whose value in a categorical column is absent
from that column's frozen basis never fails — `transform` is a total
function — and yields the encoded vector with that column's entire one-hot
block equal to all zeros. -/
theorem transform_unknown_category (st : TransformerState) (r : Record) :
    (r.city ∉ st.cityBasis → transform st r =
      numericEncoding st r ++ List.replicate st.cityBasis.length 0 ++
        oneHot r.location st.locationBasis ++ oneHot r.furnishing st.furnishingBasis) ∧
    (r.location ∉ st.locationBasis → transform st r =
      numericEncoding st r ++ oneHot r.city st.cityBasis ++
        List.replicate st.locationBasis.length 0 ++ oneHot r.furnishing st.furnishingBasis) ∧
    (r.furnishing ∉ st.furnishingBasis → transform st r =
      numericEncoding st r ++ oneHot r.city st.cityBasis ++
        oneHot r.location st.locationBasis ++ List.replicate st.furnishingBasis.length 0) :=
  ⟨fun h => by rw [transform, oneHot_not_mem _ _ h],
   fun h => by rw [transform, oneHot_not_mem _ _ h],
   fun h => by rw [transform, oneHot_not_mem _ _ h]⟩

/-- Witness for C3: a record with unknown city, location and furnishing,
against the transformer fitted on `rowsW`. -/
theorem transform_unknown_category_witness :
    transform (fitTransformer rowsW) recUnknown =
      numericEncoding (fitTransformer rowsW) recUnknown ++
        List.replicate (fitTransformer rowsW).cityBasis.length 0 ++
        oneHot recUnknown.location (fitTransformer rowsW).locationBasis ++
        oneHot recUnknown.furnishing (fitTransformer rowsW).furnishingBasis ∧
    transform (fitTransformer rowsW) recUnknown =
      numericEncoding (fitTransformer rowsW) recUnknown ++
        oneHot recUnknown.city (fitTransformer rowsW).cityBasis ++
        List.replicate (fitTransformer rowsW).locationBasis.length 0 ++
        oneHot recUnknown.furnishing (fitTransformer rowsW).furnishingBasis ∧
    transform (fitTransformer rowsW) recUnknown =
      numericEncoding (fitTransformer rowsW) recUnknown ++
        oneHot recUnknown.city (fitTransformer rowsW).cityBasis ++
        oneHot recUnknown.location (fitTransformer rowsW).locationBasis ++
        List.replicate (fitTransformer rowsW).furnishingBasis.length 0 := by
  obtain ⟨h1, h2, h3⟩ := transform_unknown_category (fitTransformer rowsW) recUnknown
  exact ⟨h1 (by decide), h2 (by decide), h3 (by decide)⟩

/-- C4 (amended): a numeric column constant in training keeps a frozen scale
of 1, so its encoded value is the input minus the training constant — no
division by the zero standard deviation occurs — and is 0 exactly when the
input equals the training constant (not for every input, as the original
claim stated). -/
theorem constant_column_encoding (i : Nat) (hi : i < numCols.length)
    (rows : List Record) (r : Record) (c : ℚ) (hne : rows ≠ [])
    (h : ∀ x ∈ rows, numCols.get ⟨i, hi⟩ x = c) :
    (fitNum (rows.map (numCols.get ⟨i, hi⟩))).2 = 1 ∧
      (transform (fitTransformer rows) r).getD i 0 = numCols.get ⟨i, hi⟩ r - c ∧
      (numCols.get ⟨i, hi⟩ r = c → (transform (fitTransformer rows) r).getD i 0 = 0) := by
  obtain ⟨h1, h2⟩ := constColComponent i hi rows r c hne h
  exact ⟨h1, h2, fun hrc => by rw [h2, hrc, sub_self]⟩

/-- Witness for C4 (amended): the `BHK` column of `rowsW` is constantly 5; on
`recW` (whose `BHK` is 7) the encoded component is `7 − 5`. -/
theorem constant_column_encoding_witness :
    (fitNum (rowsW.map (numCols.get ⟨0, by decide⟩))).2 = 1 ∧
      (transform (fitTransformer rowsW) recW).getD 0 0 =
        numCols.get ⟨0, by decide⟩ recW - 5 ∧
      (numCols.get ⟨0, by decide⟩ recW = 5 →
        (transform (fitTransformer rowsW) recW).getD 0 0 = 0) :=
  constant_column_encoding 0 (by decide) rowsW recW 5 (by decide) (by decide)

/-- Counterexample to C4 as stated: the `BHK` column of `rowsW` has zero
variance (all values 5), yet on the record `recW` with `BHK = 7` the encoded
component is `7 − 5 = 2`, not 0 — the zero-variance fallback of the code
encodes to `input − mean`, which is 0 only for inputs equal to the training
constant. -/
theorem constant_column_claim_false :
    popVar (rowsW.map (numCols.get ⟨0, by decide⟩)) = 0 ∧
      (transform (fitTransformer rowsW) recW).getD 0 0 = 2 ∧
      ((2 : ℚ) ≠ 0) := by
  have hconst : ∀ x ∈ rowsW, numCols.get ⟨0, by decide⟩ x = 5 := by decide
  refine ⟨?_, ?_, by norm_num⟩
  · refine popVar_of_const _ 5 (fun y hy => ?_)
    rcases List.mem_map.mp hy with ⟨x, hx, rfl⟩
    exact hconst x hx
  · obtain ⟨-, h2⟩ := constColComponent 0 (by decide) rowsW recW 5 (by decide) hconst
    rw [h2]
    show recW.bhk - 5 = 2
    norm_num [recW]

/-- C5: for a categorical value in the frozen basis — the sorted,
duplicate-free list of the distinct training values — the one-hot block has
the basis's length, reads 1 exactly at the value's index and 0 elsewhere,
and `transform` assembles exactly these blocks after the numeric block. -/
theorem one_hot_known_category (vals : List String) (v : String) (hv : v ∈ vals) :
    List.Sorted (fun a b => a ≤ b) (fitBasis vals) ∧
      (fitBasis vals).Nodup ∧
      (∀ w, w ∈ fitBasis vals ↔ w ∈ vals) ∧
      (oneHot v (fitBasis vals)).length = (fitBasis vals).length ∧
      (oneHot v (fitBasis vals)).getD ((fitBasis vals).indexOf v) 0 = 1 ∧
      (∀ j, j ≠ (fitBasis vals).indexOf v → (oneHot v (fitBasis vals)).getD j 0 = 0) ∧
      (oneHot v (fitBasis vals)).count 1 = 1 ∧
      (∀ st r, transform st r =
        numericEncoding st r ++ oneHot r.city st.cityBasis ++
          oneHot r.location st.locationBasis ++ oneHot r.furnishing st.furnishingBasis) := by
  have hmem : v ∈ fitBasis vals := (fitBasis_mem vals v).mpr hv
  obtain ⟨h1, h2, h3⟩ := oneHot_mem_spec v (fitBasis vals) (fitBasis_nodup vals) hmem
  exact ⟨fitBasis_sorted vals, fitBasis_nodup vals, fitBasis_mem vals,
    List.length_map _ _, h1, h2, h3, fun _ _ => rfl⟩

/-- Witness for C5 at a concrete column: the value "b" among observed values
["b", "a", "b"]. -/
theorem one_hot_known_category_witness :
    List.Sorted (fun a b => a ≤ b) (fitBasis ["b", "a", "b"]) ∧
      (fitBasis ["b", "a", "b"]).Nodup ∧
      (∀ w, w ∈ fitBasis ["b", "a", "b"] ↔ w ∈ ["b", "a", "b"]) ∧
      (oneHot "b" (fitBasis ["b", "a", "b"])).length = (fitBasis ["b", "a", "b"]).length ∧
      (oneHot "b" (fitBasis ["b", "a", "b"])).getD
        ((fitBasis ["b", "a", "b"]).indexOf "b") 0 = 1 ∧
      (∀ j, j ≠ (fitBasis ["b", "a", "b"]).indexOf "b" →
        (oneHot "b" (fitBasis ["b", "a", "b"])).getD j 0 = 0) ∧
      (oneHot "b" (fitBasis ["b", "a", "b"])).count 1 = 1 ∧
      (∀ st r, transform st r =
        numericEncoding st r ++ oneHot r.city st.cityBasis ++
          oneHot r.location st.locationBasis ++ oneHot r.furnishing st.furnishingBasis) :=
  one_hot_known_category ["b", "a", "b"] "b" (by decide)

/-! ## Claim theorems: the seeded split -/

/-- C6: with 100 records, a test fraction of 1/5 and seed 42, the split
succeeds, the test partition is exactly the first 20 entries of the seeded
permutation (hence has exactly 20 indices), and re-running the split with
the same inputs selects exactly the same indices. -/
theorem split_scenario_100_20 :
    splitIndices 100 (1 / 5) 42 =
      Except.ok ((permutation 42 100).drop 20, (permutation 42 100).take 20) ∧
    (∃ tr te, splitIndices 100 (1 / 5) 42 = Except.ok (tr, te) ∧ te.length = 20) ∧
    splitIndices 100 (1 / 5) 42 = splitIndices 100 (1 / 5) 42 := by
  have hc : testCount 100 (1 / 5) = 20 := by
    rw [testCount]
    norm_num
    decide
  have hok : splitIndices 100 (1 / 5) 42 =
      Except.ok ((permutation 42 100).drop 20, (permutation 42 100).take 20) := by
    simp only [splitIndices, hc]
    rw [if_neg (by norm_num)]
  refine ⟨hok, ⟨_, _, hok, ?_⟩, rfl⟩
  rw [List.length_take, permutation_length]
  norm_num

/-- C7: whenever the dataset has fewer than 2 rows, or the test partition
would be empty, training fails with the insufficient-data error — it never
returns a model artifact. -/
theorem train_insufficient_data (order : List Nat) (df : List RawRow) (f : ℚ)
    (seed : Nat) (h : df.length < 2 ∨ testCount df.length f = 0) :
    trainWith order df f seed = Except.error TrainError.InsufficientDataError := by
  have hlen : (prepare_features df).1.length = df.length := List.length_map _ _
  have hsplit : splitIndices (prepare_features df).1.length f seed =
      Except.error TrainError.InsufficientDataError := by
    rw [hlen]
    refine splitIndices_err _ _ _ ?_
    rcases h with h | h
    · have : df.length = 0 ∨ df.length = 1 := by omega
      rcases this with h0 | h1
      · rw [h0]
        left
        rw [testCount]
        norm_num
      · rw [h1]
        omega
    · exact Or.inl h
  rw [trainWith, trainCore, hsplit]

/-- Witness for C7: the empty dataset. -/
theorem train_insufficient_data_witness :
    trainWith [] [] (1 / 5) 42 = Except.error TrainError.InsufficientDataError :=
  train_insufficient_data [] [] (1 / 5) 42 (by decide)

/-! ## Helper lemmas: schedule-independence of the forest fit -/

/-- After folding slot writes over a completion order, a slot holds its
tree's value exactly when its index was scheduled. -/
theorem foldl_update_eval (F : Nat → Tree) :
    ∀ (order : List Nat) (g : Nat → Option Tree) (i : Nat),
      (order.foldl (fun acc j => Function.update acc j (some (F j))) g) i =
        if i ∈ order then some (F i) else g i := by
  intro order
  induction order with
  | nil => intro g i; simp
  | cons a rest ih =>
    intro g i
    rw [List.foldl_cons, ih]
    by_cases hia : i = a
    · subst hia
      by_cases hin : i ∈ rest
      · simp [hin]
      · simp [hin, Function.update_same]
    · by_cases hin : i ∈ rest
      · simp [hin, List.mem_cons, hia]
      · simp [hin, List.mem_cons, hia, Function.update_noteq hia]

/-- Any completion schedule that covers every tree index produces the same
forest: each of the independently seeded tree fits lands in its own slot. -/
theorem fitForestWith_cover (order : List Nat)
    (h : ∀ i, i < nTrees → i ∈ order) (nFeat : Nat) (data : List Sample)
    (seed : Nat) :
    fitForestWith order nFeat data seed =
      (List.range nTrees).map
        (fun i => fitSeededTree nFeat data ((prngStream nTrees seed).getD i 0)) := by
  unfold fitForestWith
  refine List.map_congr_left (fun i hi => ?_)
  rw [foldl_update_eval]
  rw [if_pos (h i (List.mem_range.mp hi))]
  rfl

/-! ## Claim theorems: determinism and noninterference of training -/

/-- C2: training is deterministic — for a fixed dataset, test fraction and
seed, the result does not depend on the order in which the hundred
parallel tree fits complete; in particular two runs yield equal (hence
byte-identical after `serialize`) model artifacts and equal metrics. -/
theorem train_two_run_determinism (df : List RawRow) (f : ℚ) (seed : Nat)
    (o1 o2 : List Nat) (h1 : ∀ i, i < nTrees → i ∈ o1)
    (h2 : ∀ i, i < nTrees → i ∈ o2) :
    trainWith o1 df f seed = trainWith o2 df f seed ∧
    Except.map (fun p => serialize p.1) (trainWith o1 df f seed) =
      Except.map (fun p => serialize p.1) (trainWith o2 df f seed) ∧
    Except.map (fun p => p.2) (trainWith o1 df f seed) =
      Except.map (fun p => p.2) (trainWith o2 df f seed) := by
  have key : trainWith o1 df f seed = trainWith o2 df f seed := by
    unfold trainWith trainCore
    simp only [fitForestWith_cover o1 h1, fitForestWith_cover o2 h2]
  exact ⟨key, by rw [key], by rw [key]⟩

/-- Witness for C2: index order against reverse index order on a concrete
run. -/
theorem train_two_run_determinism_witness :
    trainWith (List.range nTrees) dfW1 (1 / 5) 42 =
      trainWith (List.range nTrees).reverse dfW1 (1 / 5) 42 :=
  (train_two_run_determinism dfW1 (1 / 5) 42 (List.range nTrees)
    (List.range nTrees).reverse
    (fun i h => List.mem_range.mpr h)
    (fun i h => by rw [List.mem_reverse]; exact List.mem_range.mpr h)).1

/-- C10: the identifier column never influences training — two datasets that
agree after dropping `Property_ID` (same records, same rents, any
identifiers) produce the same feature matrix and target, the same training
result under every schedule, and the same prediction function. -/
theorem property_id_noninterference (d1 d2 : List RawRow)
    (h : d1.map stripId = d2.map stripId) :
    prepare_features d1 = prepare_features d2 ∧
    (∀ order f seed, trainWith order d1 f seed = trainWith order d2 f seed) ∧
    (∀ order f seed,
      Except.map (fun p => fun r => predictForest p.1.forest (transform p.1.state r))
        (trainWith order d1 f seed) =
      Except.map (fun p => fun r => predictForest p.1.forest (transform p.1.state r))
        (trainWith order d2 f seed)) := by
  have h1 : d1.map (fun r => r.record) = d2.map (fun r => r.record) := by
    have hc := congrArg (List.map Prod.fst) h
    simpa [List.map_map, stripId, Function.comp] using hc
  have h2 : d1.map (fun r => r.rent) = d2.map (fun r => r.rent) := by
    have hc := congrArg (List.map Prod.snd) h
    simpa [List.map_map, stripId, Function.comp] using hc
  have hpf : prepare_features d1 = prepare_features d2 := by
    unfold prepare_features
    rw [h1, h2]
  refine ⟨hpf, fun order f seed => ?_, fun order f seed => ?_⟩
  · rw [trainWith, trainWith, hpf]
  · rw [trainWith, trainWith, hpf]

/-- Witness for C10: one-row datasets differing only in the identifier. -/
theorem property_id_noninterference_witness :
    prepare_features dfW1 = prepare_features dfW2 ∧
    (∀ order f seed, trainWith order dfW1 f seed = trainWith order dfW2 f seed) ∧
    (∀ order f seed,
      Except.map (fun p => fun r => predictForest p.1.forest (transform p.1.state r))
        (trainWith order dfW1 f seed) =
      Except.map (fun p => fun r => predictForest p.1.forest (transform p.1.state r))
        (trainWith order dfW2 f seed)) :=
  property_id_noninterference dfW1 dfW2 (by decide)

/-! ## Helper lemmas: the artifact codec, round-trip and canonicity -/

/-- Round-trip for integers: parsing an encoded integer returns it with the
trailing tokens untouched. -/
theorem parseInt_enc (i : Int) (r : List Nat) :
    parseInt (encInt i ++ r) = Except.ok (i, r) := by
  by_cases h : 0 ≤ i
  · rw [encInt, if_pos h]
    show parseInt (0 :: i.toNat :: r) = Except.ok (i, r)
    show Except.ok ((i.toNat : Int), r) = Except.ok (i, r)
    rw [Int.toNat_of_nonneg h]
  · rw [encInt, if_neg h]
    show parseInt (1 :: (-i).toNat :: r) = Except.ok (i, r)
    have hpos : (0 : Int) < -i := by omega
    have hne : (-i).toNat ≠ 0 := by omega
    show (if (-i).toNat = 0 then _ else Except.ok (-((-i).toNat : Int), r)) = _
    rw [if_neg hne]
    have : ((-i).toNat : Int) = -i := Int.toNat_of_nonneg (le_of_lt hpos)
    rw [this, neg_neg]

/-- Canonicity for integers: an accepted parse consumed exactly the
canonical encoding. -/
theorem parseInt_canon (l : List Nat) (i : Int) (r : List Nat)
    (h : parseInt l = Except.ok (i, r)) : l = encInt i ++ r := by
  match l with
  | [] => exact absurd h (by simp [parseInt])
  | [a] =>
    exact absurd h (by
      rcases a with _ | _ | a <;> simp [parseInt])
  | a :: b :: l2 =>
    rcases a with _ | _ | a
    · have h2 : Except.ok ((b : Int), l2) = Except.ok (i, r) := h
      have h3 := Except.ok.inj h2
      obtain ⟨hi, hr⟩ := Prod.mk.injEq .. ▸ h3
      subst hr
      rw [← hi, encInt, if_pos (by positivity)]
      simp
    · by_cases hb : b = 0
      · subst hb
        exact absurd h (by simp [parseInt])
      · have h2 : (if b = 0 then (Except.error ArtifactError.CorruptArtifactError :
            Except ArtifactError (Int × List Nat)) else Except.ok (-(b : Int), l2)) =
            Except.ok (i, r) := h
        rw [if_neg hb] at h2
        have h3 := Except.ok.inj h2
        obtain ⟨hi, hr⟩ := Prod.mk.injEq .. ▸ h3
        subst hr
        have hneg : ¬ (0 : Int) ≤ -(b : Int) := by
          simp only [neg_nonneg, Int.not_le]
          exact_mod_cast Nat.pos_of_ne_zero hb
        rw [← hi, encInt, if_neg hneg]
        simp
    · exact absurd h (by simp [parseInt])

/-- Round-trip for rationals: exact, since the encoding stores the reduced
numerator and denominator. -/
theorem parseRat_enc (q : ℚ) (r : List Nat) :
    parseRat (encRat q ++ r) = Except.ok (q, r) := by
  have hsh : encRat q ++ r = encInt q.num ++ (q.den :: r) := by
    rw [encRat, List.append_assoc]
    rfl
  rw [parseRat, hsh, parseInt_enc]
  show (if h : q.den ≠ 0 ∧ q.num.natAbs.Coprime q.den then
    Except.ok (Rat.mk' q.num q.den h.1 h.2, r) else _) = Except.ok (q, r)
  rw [dif_pos ⟨q.den_nz, q.reduced⟩]

/-- Canonicity for rationals: only reduced encodings are accepted, and they
determine the value's components exactly. -/
theorem parseRat_canon (l : List Nat) (q : ℚ) (r : List Nat)
    (h : parseRat l = Except.ok (q, r)) : l = encRat q ++ r := by
  rw [parseRat] at h
  cases hpi : parseInt l with
  | error e => rw [hpi] at h; exact absurd h (by simp)
  | ok nr =>
    obtain ⟨n, r1⟩ := nr
    rw [hpi] at h
    match r1, h with
    | d :: r2, h =>
      have h2 : (if hc : d ≠ 0 ∧ n.natAbs.Coprime d then
          Except.ok ((Rat.mk' n d hc.1 hc.2 : ℚ), r2) else
          (Except.error ArtifactError.CorruptArtifactError :
            Except ArtifactError (ℚ × List Nat))) = Except.ok (q, r) := h
      by_cases hcond : d ≠ 0 ∧ n.natAbs.Coprime d
      · rw [dif_pos hcond] at h2
        have h3 := Except.ok.inj h2
        obtain ⟨hq, hr⟩ := Prod.mk.injEq .. ▸ h3
        subst hr
        have hnum : q.num = n := by rw [← hq]
        have hden : q.den = d := by rw [← hq]
        rw [parseInt_canon l n (d :: r2) hpi, encRat, hnum, hden,
          List.append_assoc]
        rfl
      · rw [dif_neg hcond] at h2
        exact absurd h2 (by simp)

/-- Every character's code point is a valid code point: `Char.valid`
restated through `Char.toNat`. -/
theorem char_toNat_valid (c : Char) : c.toNat.isValidChar := c.valid

/-- Packing a valid code point and reading it back is the identity. -/
theorem toNat_ofNatAux (n : Nat) (h : n.isValidChar) :
    (Char.ofNatAux n h).toNat = n := rfl

/-- Packing a character's own code point returns the character. -/
theorem ofNatAux_toNat (c : Char) (h : c.toNat.isValidChar) :
    Char.ofNatAux c.toNat h = c := by
  have h2 := Char.ofNat_toNat c
  rw [Char.ofNat, dif_pos h] at h2
  exact h2

/-- Round-trip for character blocks. -/
theorem parseChars_enc : ∀ (cs : List Char) (r : List Nat),
    parseChars cs.length (cs.map Char.toNat ++ r) = Except.ok (cs, r)
  | [], r => rfl
  | c :: cs, r => by
      show parseChars (cs.length + 1) (c.toNat :: (cs.map Char.toNat ++ r)) =
        Except.ok (c :: cs, r)
      rw [parseChars, dif_pos (char_toNat_valid c)]
      rw [parseChars_enc cs r]
      rw [ofNatAux_toNat c (char_toNat_valid c)]

/-- Canonicity for character blocks. -/
theorem parseChars_canon : ∀ (k : Nat) (l : List Nat) (cs : List Char)
    (r : List Nat), parseChars k l = Except.ok (cs, r) →
    cs.length = k ∧ l = cs.map Char.toNat ++ r
  | 0, l, cs, r, h => by
      have h2 := Except.ok.inj h
      obtain ⟨hcs, hr⟩ := Prod.mk.injEq .. ▸ h2
      subst hr
      rw [← hcs]
      exact ⟨rfl, rfl⟩
  | k + 1, [], cs, r, h => absurd h (by simp [parseChars])
  | k + 1, t :: l2, cs, r, h => by
      rw [parseChars] at h
      by_cases hv : t.isValidChar
      · rw [dif_pos hv] at h
        cases hrec : parseChars k l2 with
        | error e => rw [hrec] at h; exact absurd h (by simp)
        | ok csr =>
          obtain ⟨cs0, r0⟩ := csr
          rw [hrec] at h
          have h2 := Except.ok.inj h
          obtain ⟨hcs, hr⟩ := Prod.mk.injEq .. ▸ h2
          subst hr
          obtain ⟨hlen, hl⟩ := parseChars_canon k l2 cs0 r0 hrec
          rw [← hcs]
          refine ⟨by simp [hlen], ?_⟩
          rw [List.map_cons, toNat_ofNatAux t hv, List.cons_append, ← hl]
      · rw [dif_neg hv] at h
        exact absurd h (by simp)

/-- Round-trip for strings. -/
theorem parseString_enc (s : String) (r : List Nat) :
    parseString (encString s ++ r) = Except.ok (s, r) := by
  show parseString (s.data.length :: (s.data.map Char.toNat ++ r)) = _
  rw [parseString]
  show (match parseChars s.data.length (s.data.map Char.toNat ++ r) with
    | Except.ok (cs, r2) => Except.ok (String.mk cs, r2)
    | Except.error e => Except.error e) = Except.ok (s, r)
  rw [parseChars_enc s.data r]

/-- Canonicity for strings. -/
theorem parseString_canon (l : List Nat) (s : String) (r : List Nat)
    (h : parseString l = Except.ok (s, r)) : l = encString s ++ r := by
  rw [parseString] at h
  cases l with
  | nil => exact absurd h (by simp [readTok])
  | cons len l2 =>
    have h2 : (match parseChars len l2 with
      | Except.ok (cs, r2) => Except.ok (String.mk cs, r2)
      | Except.error e => (Except.error e : Except ArtifactError (String × List Nat))) =
        Except.ok (s, r) := h
    cases hrec : parseChars len l2 with
    | error e => rw [hrec] at h2; exact absurd h2 (by simp)
    | ok csr =>
      obtain ⟨cs, r2⟩ := csr
      rw [hrec] at h2
      have h3 := Except.ok.inj h2
      obtain ⟨hs, hr⟩ := Prod.mk.injEq .. ▸ h3
      subst hr
      obtain ⟨hlen, hl⟩ := parseChars_canon len l2 cs r2 hrec
      rw [← hs]
      show len :: l2 = (String.mk cs).data.length :: ((String.mk cs).data.map Char.toNat ++ r2)
      rw [← hl, hlen]

/-- Round-trip for counted repetitions, given element round-trip. -/
theorem parseCount_enc {α : Type} (p : List Nat → Except ArtifactError (α × List Nat))
    (f : α → List Nat) (hp : ∀ a r, p (f a ++ r) = Except.ok (a, r)) :
    ∀ (as : List α) (r : List Nat),
      parseCount p as.length (encListAux f as ++ r) = Except.ok (as, r)
  | [], r => rfl
  | a :: as, r => by
      show parseCount p (as.length + 1) ((f a ++ encListAux f as) ++ r) = _
      rw [parseCount, List.append_assoc, hp a (encListAux f as ++ r)]
      show (match parseCount p as.length (encListAux f as ++ r) with
        | Except.error e => (Except.error e : Except ArtifactError (List α × List Nat))
        | Except.ok (as0, r2) => Except.ok (a :: as0, r2)) = Except.ok (a :: as, r)
      rw [parseCount_enc p f hp as r]

/-- Canonicity for counted repetitions, given element canonicity. -/
theorem parseCount_canon {α : Type} (p : List Nat → Except ArtifactError (α × List Nat))
    (f : α → List Nat) (hp : ∀ l a r, p l = Except.ok (a, r) → l = f a ++ r) :
    ∀ (k : Nat) (l : List Nat) (as : List α) (r : List Nat),
      parseCount p k l = Except.ok (as, r) →
      as.length = k ∧ l = encListAux f as ++ r
  | 0, l, as, r, h => by
      have h2 := Except.ok.inj h
      obtain ⟨has, hr⟩ := Prod.mk.injEq .. ▸ h2
      subst hr
      rw [← has]
      exact ⟨rfl, rfl⟩
  | k + 1, l, as, r, h => by
      rw [parseCount] at h
      cases hpe : p l with
      | error e => rw [hpe] at h; exact absurd h (by simp)
      | ok ar =>
        obtain ⟨a, r1⟩ := ar
        rw [hpe] at h
        have h1 : (match parseCount p k r1 with
          | Except.error e => (Except.error e : Except ArtifactError (List α × List Nat))
          | Except.ok (as0, r2) => Except.ok (a :: as0, r2)) = Except.ok (as, r) := h
        cases hrec : parseCount p k r1 with
        | error e => rw [hrec] at h1; exact absurd h1 (by simp)
        | ok asr =>
          obtain ⟨as0, r2⟩ := asr
          rw [hrec] at h1
          have h2 := Except.ok.inj h1
          obtain ⟨has, hr⟩ := Prod.mk.injEq .. ▸ h2
          subst hr
          obtain ⟨hlen, hl⟩ := parseCount_canon p f hp k r1 as0 r2 hrec
          rw [← has]
          refine ⟨by simp [hlen], ?_⟩
          rw [hp l a r1 hpe, hl]
          show f a ++ (encListAux f as0 ++ r2) = encListAux f (a :: as0) ++ r2
          rw [encListAux, List.append_assoc]

/-- Round-trip for counted lists. -/
theorem parseList_enc {α : Type} (p : List Nat → Except ArtifactError (α × List Nat))
    (f : α → List Nat) (hp : ∀ a r, p (f a ++ r) = Except.ok (a, r))
    (as : List α) (r : List Nat) :
    parseList p (encList f as ++ r) = Except.ok (as, r) := by
  show parseList p (as.length :: (encListAux f as ++ r)) = _
  rw [parseList]
  show parseCount p as.length (encListAux f as ++ r) = _
  exact parseCount_enc p f hp as r

/-- Canonicity for counted lists. -/
theorem parseList_canon {α : Type} (p : List Nat → Except ArtifactError (α × List Nat))
    (f : α → List Nat) (hp : ∀ l a r, p l = Except.ok (a, r) → l = f a ++ r)
    (l : List Nat) (as : List α) (r : List Nat)
    (h : parseList p l = Except.ok (as, r)) : l = encList f as ++ r := by
  rw [parseList] at h
  cases l with
  | nil => exact absurd h (by simp [readTok])
  | cons len l2 =>
    have h2 : parseCount p len l2 = Except.ok (as, r) := h
    obtain ⟨hlen, hl⟩ := parseCount_canon p f hp len l2 as r h2
    rw [← hlen, hl]
    rfl

/-- Round-trip for statistics pairs. -/
theorem parsePairRat_enc (a : ℚ × ℚ) (r : List Nat) :
    parsePairRat (encPairRat a ++ r) = Except.ok (a, r) := by
  rw [parsePairRat, encPairRat, List.append_assoc, parseRat_enc]
  show (match parseRat (encRat a.2 ++ r) with
    | Except.error e => (Except.error e : Except ArtifactError ((ℚ × ℚ) × List Nat))
    | Except.ok (b, r2) => Except.ok ((a.1, b), r2)) = Except.ok (a, r)
  rw [parseRat_enc]

/-- Canonicity for statistics pairs. -/
theorem parsePairRat_canon (l : List Nat) (a : ℚ × ℚ) (r : List Nat)
    (h : parsePairRat l = Except.ok (a, r)) : l = encPairRat a ++ r := by
  rw [parsePairRat] at h
  cases h1 : parseRat l with
  | error e => rw [h1] at h; exact absurd h (by simp)
  | ok qr =>
    obtain ⟨q1, r1⟩ := qr
    rw [h1] at h
    have hm : (match parseRat r1 with
      | Except.error e => (Except.error e : Except ArtifactError ((ℚ × ℚ) × List Nat))
      | Except.ok (b, r2) => Except.ok ((q1, b), r2)) = Except.ok (a, r) := h
    cases h2 : parseRat r1 with
    | error e => rw [h2] at hm; exact absurd hm (by simp)
    | ok qr2 =>
      obtain ⟨q2, r2⟩ := qr2
      rw [h2] at hm
      have h3 := Except.ok.inj hm
      obtain ⟨ha, hr⟩ := Prod.mk.injEq .. ▸ h3
      subst hr
      rw [parseRat_canon l q1 r1 h1, parseRat_canon r1 q2 r2 h2, ← ha]
      rw [encPairRat, List.append_assoc]

/-- A tree's encoding has at least as many tokens as the tree has
constructors, so the stream length always suffices as parser fuel. -/
theorem nodes_le_encTree : ∀ (t : Tree), nodes t ≤ (encTree t).length
  | Tree.leaf v => by
      rw [nodes, encTree]
      simp
  | Tree.node f t l r => by
      have hl := nodes_le_encTree l
      have hr := nodes_le_encTree r
      rw [nodes, encTree]
      simp only [List.length_cons, List.length_append]
      omega

/-- Round-trip for trees, with any sufficient fuel. -/
theorem parseTree_enc : ∀ (t : Tree) (fuel : Nat) (r : List Nat),
    nodes t ≤ fuel → parseTree fuel (encTree t ++ r) = Except.ok (t, r)
  | Tree.leaf v, fuel, r, h => by
      have hf : ∃ k, fuel = k + 1 := ⟨fuel - 1, by rw [nodes] at h; omega⟩
      obtain ⟨k, rfl⟩ := hf
      show parseTree (k + 1) (0 :: (encRat v ++ r)) = _
      rw [parseTree]
      show (match parseRat (encRat v ++ r) with
        | Except.error e => (Except.error e : Except ArtifactError (Tree × List Nat))
        | Except.ok (v, r2) => Except.ok (Tree.leaf v, r2)) = _
      rw [parseRat_enc]
  | Tree.node f t l r, fuel, rest, h => by
      have hf : ∃ k, fuel = k + 1 := ⟨fuel - 1, by rw [nodes] at h; omega⟩
      obtain ⟨k, rfl⟩ := hf
      rw [nodes] at h
      have hl : nodes l ≤ k := by omega
      have hr : nodes r ≤ k := by omega
      show parseTree (k + 1) (1 :: f :: ((encRat t ++ encTree l ++ encTree r) ++ rest)) = _
      rw [parseTree]
      have hsh : (encRat t ++ encTree l ++ encTree r) ++ rest =
          encRat t ++ (encTree l ++ (encTree r ++ rest)) := by
        simp [List.append_assoc]
      rw [hsh]
      show (match parseRat (encRat t ++ (encTree l ++ (encTree r ++ rest))) with
        | Except.error e => (Except.error e : Except ArtifactError (Tree × List Nat))
        | Except.ok (th, r2) =>
            match parseTree k r2 with
            | Except.error e => Except.error e
            | Except.ok (lt, r3) =>
                match parseTree k r3 with
                | Except.error e => Except.error e
                | Except.ok (rt, r4) => Except.ok (Tree.node f th lt rt, r4)) = _
      rw [parseRat_enc]
      show (match parseTree k (encTree l ++ (encTree r ++ rest)) with
        | Except.error e => (Except.error e : Except ArtifactError (Tree × List Nat))
        | Except.ok (lt, r3) =>
            match parseTree k r3 with
            | Except.error e => Except.error e
            | Except.ok (rt, r4) => Except.ok (Tree.node f t lt rt, r4)) = _
      rw [parseTree_enc l k _ hl]
      show (match parseTree k (encTree r ++ rest) with
        | Except.error e => (Except.error e : Except ArtifactError (Tree × List Nat))
        | Except.ok (rt, r4) => Except.ok (Tree.node f t l rt, r4)) = _
      rw [parseTree_enc r k rest hr]

/-- Canonicity for trees: an accepted parse, at any fuel, consumed exactly
the preorder encoding. -/
theorem parseTree_canon : ∀ (fuel : Nat) (l : List Nat) (t : Tree) (r : List Nat),
    parseTree fuel l = Except.ok (t, r) → l = encTree t ++ r
  | 0, l, t, r, h => absurd h (by rw [parseTree]; simp)
  | fuel + 1, [], t, r, h => absurd h (by rw [parseTree] <;> simp)
  | fuel + 1, 0 :: l2, t, r, h => by
      rw [parseTree] at h
      have h1 : (match parseRat l2 with
        | Except.error e => (Except.error e : Except ArtifactError (Tree × List Nat))
        | Except.ok (v, r2) => Except.ok (Tree.leaf v, r2)) = Except.ok (t, r) := h
      cases hpr : parseRat l2 with
      | error e => rw [hpr] at h1; exact absurd h1 (by simp)
      | ok vr =>
        obtain ⟨v, r2⟩ := vr
        rw [hpr] at h1
        have h3 := Except.ok.inj h1
        obtain ⟨ht, hr⟩ := Prod.mk.injEq .. ▸ h3
        subst hr
        rw [← ht, encTree]
        rw [parseRat_canon l2 v r2 hpr]
        rfl
  | fuel + 1, 1 :: l2, t, r, h => by
      match l2, h with
      | [], h => exact absurd h (by rw [parseTree] <;> simp)
      | f :: l3, h =>
        rw [parseTree] at h
        have h1 : (match parseRat l3 with
          | Except.error e => (Except.error e : Except ArtifactError (Tree × List Nat))
          | Except.ok (th, r2) =>
              match parseTree fuel r2 with
              | Except.error e => Except.error e
              | Except.ok (lt, r3) =>
                  match parseTree fuel r3 with
                  | Except.error e => Except.error e
                  | Except.ok (rt, r4) => Except.ok (Tree.node f th lt rt, r4)) =
            Except.ok (t, r) := h
        cases hpr : parseRat l3 with
        | error e => rw [hpr] at h1; exact absurd h1 (by simp)
        | ok vr =>
          obtain ⟨th, r2⟩ := vr
          rw [hpr] at h1
          have h2 : (match parseTree fuel r2 with
            | Except.error e => (Except.error e : Except ArtifactError (Tree × List Nat))
            | Except.ok (lt, r3) =>
                match parseTree fuel r3 with
                | Except.error e => Except.error e
                | Except.ok (rt, r4) => Except.ok (Tree.node f th lt rt, r4)) =
              Except.ok (t, r) := h1
          cases hpl : parseTree fuel r2 with
          | error e => rw [hpl] at h2; exact absurd h2 (by simp)
          | ok lr =>
            obtain ⟨lt, r3⟩ := lr
            rw [hpl] at h2
            have h3 : (match parseTree fuel r3 with
              | Except.error e => (Except.error e : Except ArtifactError (Tree × List Nat))
              | Except.ok (rt, r4) => Except.ok (Tree.node f th lt rt, r4)) =
                Except.ok (t, r) := h2
            cases hpright : parseTree fuel r3 with
            | error e => rw [hpright] at h3; exact absurd h3 (by simp)
            | ok rr =>
              obtain ⟨rt, r4⟩ := rr
              rw [hpright] at h3
              have h4 := Except.ok.inj h3
              obtain ⟨ht, hr⟩ := Prod.mk.injEq .. ▸ h4
              subst hr
              rw [← ht, encTree]
              rw [parseRat_canon l3 th r2 hpr, parseTree_canon fuel r2 lt r3 hpl,
                parseTree_canon fuel r3 rt r4 hpright]
              simp [List.append_assoc]
  | fuel + 1, (n + 2) :: l2, t, r, h => by
      exact absurd h (by rw [parseTree] <;> simp)

/-- Round-trip for the stream-length-fuelled tree parser. -/
theorem parseTreeTop_enc (t : Tree) (r : List Nat) :
    parseTreeTop (encTree t ++ r) = Except.ok (t, r) := by
  rw [parseTreeTop]
  refine parseTree_enc t _ r ?_
  calc nodes t ≤ (encTree t).length := nodes_le_encTree t
    _ ≤ (encTree t ++ r).length := by simp

/-- Canonicity for the stream-length-fuelled tree parser. -/
theorem parseTreeTop_canon (l : List Nat) (t : Tree) (r : List Nat)
    (h : parseTreeTop l = Except.ok (t, r)) : l = encTree t ++ r :=
  parseTree_canon l.length l t r h

/-- Round-trip for the transformer statistics. -/
theorem parseState_enc (st : TransformerState) (r : List Nat) :
    parseState (encState st ++ r) = Except.ok (st, r) := by
  obtain ⟨ns, cb, lb, fb⟩ := st
  rw [parseState, encState]
  have hsh : (encList encPairRat ns ++ encList encString cb ++
      encList encString lb ++ encList encString fb) ++ r =
      encList encPairRat ns ++ (encList encString cb ++
        (encList encString lb ++ (encList encString fb ++ r))) := by
    simp [List.append_assoc]
  rw [hsh, parseList_enc _ _ parsePairRat_enc]
  show (match parseList parseString (encList encString cb ++
      (encList encString lb ++ (encList encString fb ++ r))) with
    | Except.error e => (Except.error e : Except ArtifactError (TransformerState × List Nat))
    | Except.ok (cb2, r2) =>
        match parseList parseString r2 with
        | Except.error e => Except.error e
        | Except.ok (lb2, r3) =>
            match parseList parseString r3 with
            | Except.error e => Except.error e
            | Except.ok (fb2, r4) => Except.ok (⟨ns, cb2, lb2, fb2⟩, r4)) = _
  rw [parseList_enc _ _ parseString_enc]
  show (match parseList parseString (encList encString lb ++
      (encList encString fb ++ r)) with
    | Except.error e => (Except.error e : Except ArtifactError (TransformerState × List Nat))
    | Except.ok (lb2, r3) =>
        match parseList parseString r3 with
        | Except.error e => Except.error e
        | Except.ok (fb2, r4) => Except.ok (⟨ns, cb, lb2, fb2⟩, r4)) = _
  rw [parseList_enc _ _ parseString_enc]
  show (match parseList parseString (encList encString fb ++ r) with
    | Except.error e => (Except.error e : Except ArtifactError (TransformerState × List Nat))
    | Except.ok (fb2, r4) => Except.ok (⟨ns, cb, lb, fb2⟩, r4)) = _
  rw [parseList_enc _ _ parseString_enc]

/-- Canonicity for the transformer statistics. -/
theorem parseState_canon (l : List Nat) (st : TransformerState) (r : List Nat)
    (h : parseState l = Except.ok (st, r)) : l = encState st ++ r := by
  rw [parseState] at h
  cases h1 : parseList parsePairRat l with
  | error e => rw [h1] at h; exact absurd h (by simp)
  | ok p1 =>
    obtain ⟨ns, r1⟩ := p1
    rw [h1] at h
    have hm1 : (match parseList parseString r1 with
      | Except.error e => (Except.error e : Except ArtifactError (TransformerState × List Nat))
      | Except.ok (cb2, r2) =>
          match parseList parseString r2 with
          | Except.error e => Except.error e
          | Except.ok (lb2, r3) =>
              match parseList parseString r3 with
              | Except.error e => Except.error e
              | Except.ok (fb2, r4) => Except.ok (⟨ns, cb2, lb2, fb2⟩, r4)) =
        Except.ok (st, r) := h
    cases h2 : parseList parseString r1 with
    | error e => rw [h2] at hm1; exact absurd hm1 (by simp)
    | ok p2 =>
      obtain ⟨cb, r2⟩ := p2
      rw [h2] at hm1
      have hm2 : (match parseList parseString r2 with
        | Except.error e => (Except.error e : Except ArtifactError (TransformerState × List Nat))
        | Except.ok (lb2, r3) =>
            match parseList parseString r3 with
            | Except.error e => Except.error e
            | Except.ok (fb2, r4) => Except.ok (⟨ns, cb, lb2, fb2⟩, r4)) =
          Except.ok (st, r) := hm1
      cases h3 : parseList parseString r2 with
      | error e => rw [h3] at hm2; exact absurd hm2 (by simp)
      | ok p3 =>
        obtain ⟨lb, r3⟩ := p3
        rw [h3] at hm2
        have hm3 : (match parseList parseString r3 with
          | Except.error e => (Except.error e : Except ArtifactError (TransformerState × List Nat))
          | Except.ok (fb2, r4) => Except.ok (⟨ns, cb, lb, fb2⟩, r4)) =
            Except.ok (st, r) := hm2
        cases h4 : parseList parseString r3 with
        | error e => rw [h4] at hm3; exact absurd hm3 (by simp)
        | ok p4 =>
          obtain ⟨fb, r4⟩ := p4
          rw [h4] at hm3
          have h5 := Except.ok.inj hm3
          obtain ⟨hst, hr⟩ := Prod.mk.injEq .. ▸ h5
          subst hr
          rw [← hst, encState]
          rw [parseList_canon _ _ parsePairRat_canon l ns r1 h1,
            parseList_canon _ _ parseString_canon r1 cb r2 h2,
            parseList_canon _ _ parseString_canon r2 lb r3 h3,
            parseList_canon _ _ parseString_canon r3 fb r4 h4]
          simp [List.append_assoc]

/-- Round-trip for the whole artifact codec: loading the saved bytes
reproduces the artifact exactly. -/
theorem deserialize_serialize (a : ModelArtifact) :
    deserialize (serialize a) = Except.ok a := by
  obtain ⟨st, forest⟩ := a
  show deserialize (protoTag :: formatVersion ::
    (encState st ++ encList encTree forest)) = _
  rw [deserialize]
  rw [if_pos ⟨rfl, rfl⟩]
  have henc : encState st ++ encList encTree forest =
      encState st ++ (encList encTree forest ++ []) := by simp
  rw [henc, parseState_enc]
  show (match parseList parseTreeTop (encList encTree forest ++ []) with
    | Except.error e => (Except.error e : Except ArtifactError ModelArtifact)
    | Except.ok (forest2, r3) =>
        match r3 with
        | [] => Except.ok ⟨st, forest2⟩
        | _ :: _ => Except.error ArtifactError.CorruptArtifactError) = _
  rw [parseList_enc _ _ parseTreeTop_enc]

/-- Canonicity for the whole artifact codec: the only accepted byte streams
are exact serializations. -/
theorem deserialize_canon (l : List Nat) (a : ModelArtifact)
    (h : deserialize l = Except.ok a) : l = serialize a := by
  match l with
  | [] => exact absurd h (by rw [deserialize] <;> simp)
  | [p] => exact absurd h (by rw [deserialize] <;> simp)
  | p :: v :: r =>
    rw [deserialize] at h
    by_cases hpv : p = protoTag ∧ v = formatVersion
    · rw [if_pos hpv] at h
      cases h1 : parseState r with
      | error e => rw [h1] at h; exact absurd h (by simp)
      | ok str =>
        obtain ⟨st, r2⟩ := str
        rw [h1] at h
        have hm : (match parseList parseTreeTop r2 with
          | Except.error e => (Except.error e : Except ArtifactError ModelArtifact)
          | Except.ok (forest2, r3) =>
              match r3 with
              | [] => Except.ok (⟨st, forest2⟩ : ModelArtifact)
              | _ :: _ => Except.error ArtifactError.CorruptArtifactError) =
            Except.ok a := h
        cases h2 : parseList parseTreeTop r2 with
        | error e => rw [h2] at hm; exact absurd hm (by simp)
        | ok fr =>
          obtain ⟨forest, r3⟩ := fr
          rw [h2] at hm
          match r3, hm with
          | [], hm =>
            have h3 := Except.ok.inj hm
            obtain ⟨hp, hv⟩ := hpv
            subst hp
            subst hv
            rw [serialize, ← h3]
            show protoTag :: formatVersion :: r =
              protoTag :: formatVersion :: (encState st ++ encList encTree forest)
            rw [parseState_canon r st r2 h1,
              parseList_canon _ _ parseTreeTop_canon r2 forest [] h2]
            simp
          | _ :: _, hm => exact absurd hm (by simp)
    · rw [if_neg hpv] at h
      exact absurd h (by simp)

/-! ## Claim theorems: persistence and the memoized load -/

/-- C1: the serialization round-trip is exact for every model artifact — the
schema snapshot (the categorical bases), the frozen per-column means and
scales, and every fitted tree of the estimator are reproduced without loss,
since rationals are stored as exact reduced fractions. -/
theorem artifact_roundtrip (a : ModelArtifact) :
    deserialize (serialize a) = Except.ok a :=
  deserialize_serialize a

/-- C8: every serialized artifact opens with the explicit format-version
marker; the version is checked on load, any stream with a different
version fails with the corrupt-artifact error, and any stream accepted at
all is the exact serialization of the returned artifact — so every
malformed byte sequence is rejected. -/
theorem deserialize_version_checked :
    (∀ a : ModelArtifact, serialize a =
      protoTag :: formatVersion :: (encState a.state ++ encList encTree a.forest)) ∧
    (∀ (v : Nat) (r : List Nat), v ≠ formatVersion →
      deserialize (protoTag :: v :: r) =
        Except.error ArtifactError.CorruptArtifactError) ∧
    (∀ (l : List Nat) (a : ModelArtifact),
      deserialize l = Except.ok a → l = serialize a) := by
  refine ⟨fun a => rfl, fun v r hv => ?_, fun l a h => deserialize_canon l a h⟩
  rw [deserialize]
  rw [if_neg (fun hc => hv hc.2)]

/-- Witness for C8: the version check rejects version 99, and the accepted
stream `serialize artifactW` is its own canonical encoding. -/
theorem deserialize_version_checked_witness :
    serialize artifactW = protoTag :: formatVersion ::
      (encState artifactW.state ++ encList encTree artifactW.forest) ∧
    deserialize (protoTag :: 99 :: []) =
      Except.error ArtifactError.CorruptArtifactError ∧
    serialize artifactW = serialize artifactW :=
  ⟨deserialize_version_checked.1 artifactW,
   deserialize_version_checked.2.1 99 [] (by decide),
   deserialize_version_checked.2.2 (serialize artifactW) artifactW
     (deserialize_serialize artifactW)⟩

/-- Once the cache holds the artifact, every further caller is served from
the cache: no additional storage read, same handle. -/
theorem runCallers_cached (storage : List Nat) (a : ModelArtifact) :
    ∀ (k : Nat) (s : CacheState), s.cached = some a →
      runCallers storage k s = (s, List.replicate k (Except.ok a))
  | 0, s, h => rfl
  | k + 1, s, h => by
      have hstep : loadStep storage s = (s, Except.ok a) := by
        rw [loadStep, h]
      show (let step := loadStep storage s
        let rest := runCallers storage k step.1
        (rest.1, step.2 :: rest.2)) = (s, List.replicate (k + 1) (Except.ok a))
      rw [hstep]
      show ((runCallers storage k s).1,
        Except.ok a :: (runCallers storage k s).2) = _
      rw [runCallers_cached storage a k s h]
      rfl

/-- C9: the memoized load is single-flight and idempotent — for any number
`n ≥ 1` of callers hitting the same storage location (in the serialization
order the cache's lock imposes), exactly one underlying storage read
happens, and every caller receives the same handle to the one decoded
artifact. -/
theorem load_once_single_flight (a : ModelArtifact) (n : Nat) (hn : 1 ≤ n) :
    (runCallers (serialize a) n initialCache).1.reads = 1 ∧
    (runCallers (serialize a) n initialCache).2 =
      List.replicate n (Except.ok a) := by
  obtain ⟨m, rfl⟩ : ∃ m, n = m + 1 := ⟨n - 1, by omega⟩
  have hfirst : loadStep (serialize a) initialCache =
      (⟨some a, 1⟩, Except.ok a) := by
    rw [loadStep]
    show (match deserialize (serialize a) with
      | Except.ok a2 => ((⟨some a2, 1⟩ : CacheState), Except.ok a2)
      | Except.error e => ((⟨none, 1⟩ : CacheState), Except.error e)) = _
    rw [deserialize_serialize a]
  show (let step := loadStep (serialize a) initialCache
    let rest := runCallers (serialize a) m step.1
    (rest.1, step.2 :: rest.2)).1.reads = 1 ∧
    (let step := loadStep (serialize a) initialCache
      let rest := runCallers (serialize a) m step.1
      (rest.1, step.2 :: rest.2)).2 = List.replicate (m + 1) (Except.ok a)
  rw [hfirst]
  show (runCallers (serialize a) m ⟨some a, 1⟩).1.reads = 1 ∧
    (Except.ok a :: (runCallers (serialize a) m ⟨some a, 1⟩).2) =
      List.replicate (m + 1) (Except.ok a)
  rw [runCallers_cached (serialize a) a m ⟨some a, 1⟩ rfl]
  exact ⟨rfl, rfl⟩

/-- Witness for C9: ten concurrent callers, one read, all served the same
artifact. -/
theorem load_once_single_flight_witness :
    (runCallers (serialize artifactW) 10 initialCache).1.reads = 1 ∧
    (runCallers (serialize artifactW) 10 initialCache).2 =
      List.replicate 10 (Except.ok artifactW) :=
  load_once_single_flight artifactW 10 (by decide)

end RentalPredictor










